import Mathlib

/-!
Shallow embedding of the winr-app deposit / KYC / mint-gate core.

Sources embedded here:
  - src/app/api/deposits/route.ts  (deposit ledger REST handlers)
  - src/app/api/kyc/route.ts       (KYC registry REST handlers)
  - src/app/page.tsx               (client hooks: useKyc, useDeposits, useMintGate)

Modelling conventions:
  - ISO timestamp strings are modelled as integer milliseconds since epoch
    (the code round-trips them through Date.parse / toISOString).
  - A JavaScript Map keyed by id/address is modelled as a List of records;
    Map.set replaces in place or appends, Map.get finds the first match,
    mirroring insertion-order semantics.
  - A parsed JSON body is an Option structure: none models an unparseable
    body, a missing field is the none of that field.
  - JS numbers appearing in patch bodies are modelled as integers.
  - Error responses carry the HTTP status code and a message label.
-/

namespace Winr

/-- Trim of a character list: whitespace removed from both ends, the
semantics of String.prototype.trim restricted to the characters the
specification exercises. Implemented structurally so the kernel can
evaluate it on literals. -/
def trimList (l : List Char) : List Char :=
  ((l.dropWhile Char.isWhitespace).reverse.dropWhile Char.isWhitespace).reverse

/-- String trim over the underlying character list. -/
def jsTrim (s : String) : String :=
  ⟨trimList s.data⟩

/-- String toLowerCase over the underlying character list. -/
def jsToLower (s : String) : String :=
  ⟨s.data.map Char.toLower⟩

/-- String toUpperCase over the underlying character list. -/
def jsToUpper (s : String) : String :=
  ⟨s.data.map Char.toUpper⟩

/-- Character class of the hex part of ADDRESS_REGEX, 0x[a-fA-F0-9]. -/
def isHexDigitCh (c : Char) : Bool :=
  c.isDigit || ('a' ≤ c && c ≤ 'f') || ('A' ≤ c && c ≤ 'F')

/-- ADDRESS_REGEX test from deposits/route.ts line 69 and kyc/route.ts line 31:
the string is 0x followed by exactly forty hex digits. -/
def addressRegexTest (s : String) : Bool :=
  match s.data with
  | '0' :: 'x' :: hex => hex.length == 40 && hex.all isHexDigitCh
  | _ => false

/-- normalizeAddress from both routes: reject a missing or empty value, trim,
test against ADDRESS_REGEX, lowercase. -/
def normalizeAddress (addr : Option String) : Option String :=
  match addr with
  | none => none
  | some str =>
    if str = "" then none
    else
      let a := jsTrim str
      if addressRegexTest a then some (jsToLower a) else none

/-- The optional fractional group of AMOUNT_REGEX: what remains after the
leading digit run must be empty, or a literal dot followed by one to
eighteen digits reaching the end of the string. -/
def fracPartTest (l : List Char) : Bool :=
  match l with
  | [] => true
  | x :: fp =>
    x == '.' && decide (fp ≠ []) && decide (fp.length ≤ 18) && fp.all Char.isDigit

/-- AMOUNT_REGEX test from deposits/route.ts line 70, transcribing the regex
one-or-more digits, then optionally a dot and one to eighteen digits.
The leading digit run is matched greedily with takeWhile, exactly as the
regex engine consumes a digit-plus group followed by a literal dot. -/
def amountRegexTest (s : String) : Bool :=
  decide (s.data.takeWhile Char.isDigit ≠ []) &&
    fracPartTest (s.data.dropWhile Char.isDigit)

/-- isValidAmount from deposits/route.ts, string branch: trim then regex test. -/
def isValidAmountStr (s : String) : Bool :=
  amountRegexTest (jsTrim s)

/-- Whether a decimal string denotes a strictly positive value: some digit is
not zero. Used to compare the validator against the spec claim of strict
positivity. -/
def decimalPositive (s : String) : Bool :=
  s.data.any (fun c => c.isDigit && c != '0')

/-- Deposit status enumeration from deposits/route.ts line 36. -/
inductive DepositStatus
  | pending
  | confirming
  | confirmed
  | failed
deriving Repr, DecidableEq

/-- DepositRecord from deposits/route.ts lines 38-52. -/
structure DepositRecord where
  id : String
  address : String
  amount : String
  currency : String
  status : DepositStatus
  readyToMint : Bool
  createdAt : Int
  updatedAt : Int
  confirmations : Option Nat
  notes : Option String
  fiatRefId : Option String
  chainTxHash : Option String
deriving Repr, DecidableEq

/-- HTTP-style error response: status code and message label. -/
structure ErrResp where
  status : Nat
  message : String
deriving Repr, DecidableEq

/-- Map.get on a store keyed by keyOf. -/
def assocGet (keyOf : α → String) (s : List α) (i : String) : Option α :=
  s.find? (fun r => keyOf r == i)

/-- Map.set on a store keyed by keyOf: replace in place when the key is
present, append otherwise (insertion-order semantics of a JS Map). -/
def assocSet (keyOf : α → String) (s : List α) (r : α) : List α :=
  if s.any (fun x => keyOf x == keyOf r) then
    s.map (fun x => if keyOf x == keyOf r then r else x)
  else s ++ [r]

/-- deposits.get -/
def storeGet (s : List DepositRecord) (i : String) : Option DepositRecord :=
  assocGet (fun r => r.id) s i

/-- deposits.set -/
def storeSet (s : List DepositRecord) (r : DepositRecord) : List DepositRecord :=
  assocSet (fun r => r.id) s r

/-- AUTO_CONFIRM_MS from deposits/route.ts line 78. -/
def AUTO_CONFIRM_MS : Int := 8000

/-- maybeAutoAdvance from deposits/route.ts lines 158-170: when the record is
pending or confirming and at least AUTO_CONFIRM_MS elapsed since creation,
set status confirmed, readyToMint true, increment confirmations (missing
counter counts as zero) and refresh updatedAt; otherwise leave the record
unchanged. -/
def maybeAutoAdvance (now : Int) (rec0 : DepositRecord) : DepositRecord :=
  if (rec0.status = .pending ∨ rec0.status = .confirming) ∧
      now - rec0.createdAt ≥ AUTO_CONFIRM_MS then
    { rec0 with
      status := .confirmed
      readyToMint := true
      confirmations := some (rec0.confirmations.getD 0 + 1)
      updatedAt := now }
  else rec0

/-- GET with an id query (deposits/route.ts lines 203-210): 404 when absent,
otherwise auto-advance, persist back, return the updated record. -/
def depositsGetById (s : List DepositRecord) (i : String) (now : Int) :
    Except ErrResp (DepositRecord × List DepositRecord) :=
  match storeGet s i with
  | none => .error ⟨404, "Deposit not found"⟩
  | some rec0 =>
    let u := maybeAutoAdvance now rec0
    .ok (u, storeSet s u)

/-- GET with an address query (deposits/route.ts lines 212-221): snapshot the
matching records, auto-advance each, persist each back, return the list. -/
def depositsListByAddress (s : List DepositRecord) (a : String) (now : Int) :
    List DepositRecord × List DepositRecord :=
  let snapshot := s.filter (fun r => r.address == a)
  let advanced := snapshot.map (maybeAutoAdvance now)
  (advanced, advanced.foldl storeSet s)

/-- GET with no query (deposits/route.ts lines 224-229): auto-advance every
record, persist each back, return the list. -/
def depositsListAll (s : List DepositRecord) (now : Int) :
    List DepositRecord × List DepositRecord :=
  let advanced := s.map (maybeAutoAdvance now)
  (advanced, advanced.foldl storeSet s)

/-- POST body for deposits (deposits/route.ts lines 54-59). Amounts are
modelled in their decimal string form. -/
structure DepositPostBody where
  address : Option String
  amount : Option String
  currency : Option String
  notes : Option String
deriving Repr, DecidableEq

/-- The notes spread in the POST constructors: a notes field is kept only
when present and truthy (the empty string is falsy in JS). -/
def truthyNotes (notes : Option String) : Option String :=
  match notes with
  | some nt => if nt = "" then none else some nt
  | none => none

/-- The record literal built by deposits POST (deposits/route.ts lines
254-265): status pending, readyToMint false, confirmations zero, both
timestamps set to now, optional refs absent. -/
def mkDeposit (i address amount currency : String) (notes : Option String)
    (now : Int) : DepositRecord :=
  { id := i
    address := address
    amount := amount
    currency := currency
    status := .pending
    readyToMint := false
    createdAt := now
    updatedAt := now
    confirmations := some 0
    notes := truthyNotes notes
    fiatRefId := none
    chainTxHash := none }

/-- POST handler (deposits/route.ts lines 232-269): validate address and
amount, default the currency to INR (uppercased, trimmed), store a fresh
pending record. The generated id is passed in as freshId. -/
def depositsPOST (s : List DepositRecord) (body : Option DepositPostBody)
    (freshId : String) (now : Int) :
    Except ErrResp (DepositRecord × List DepositRecord) :=
  match body with
  | none => .error ⟨400, "Invalid JSON body"⟩
  | some b =>
    match normalizeAddress b.address with
    | none => .error ⟨422, "Invalid or missing address"⟩
    | some address =>
      match b.amount with
      | none => .error ⟨422, "Invalid or missing amount"⟩
      | some amt =>
        if isValidAmountStr amt then
          let currency :=
            match b.currency with
            | some c => if jsTrim c ≠ "" then jsToUpper (jsTrim c) else "INR"
            | none => "INR"
          let rec0 := mkDeposit freshId address (jsTrim amt) currency b.notes now
          .ok (rec0, storeSet s rec0)
        else .error ⟨422, "Invalid or missing amount"⟩

/-- Whether an Except result is the ok branch. -/
def isOkResp (e : Except ErrResp (DepositRecord × List DepositRecord)) : Bool :=
  match e with
  | .ok _ => true
  | .error _ => false

/-- PATCH body for deposits (deposits/route.ts lines 61-67). The status
arrives as a raw string so that the invalid-status path is modelled. -/
structure DepositPatchBody where
  id : Option String
  status : Option String
  readyToMint : Option Bool
  notes : Option String
  confirmations : Option Int
deriving Repr, DecidableEq

/-- Parse a status string against the allowed deposit status list. -/
def parseDepositStatus (s : String) : Option DepositStatus :=
  if s = "pending" then some .pending
  else if s = "confirming" then some .confirming
  else if s = "confirmed" then some .confirmed
  else if s = "failed" then some .failed
  else none

/-- The readyToMint assignment of the deposits PATCH handler (deposits/route.ts
lines 293-295): overwrite the flag when the body carries a boolean. -/
def applyReadyToMint (b : Option Bool) (r : DepositRecord) : DepositRecord :=
  match b with
  | none => r
  | some rm => { r with readyToMint := rm }

/-- The notes assignment of the deposits PATCH handler (deposits/route.ts
lines 297-299): overwrite notes with the trimmed body string when present. -/
def applyNotes (b : Option String) (r : DepositRecord) : DepositRecord :=
  match b with
  | none => r
  | some nt => { r with notes := some (jsTrim nt) }

/-- The confirmations assignment of the deposits PATCH handler
(deposits/route.ts lines 301-303): overwrite when the body carries a
non-negative number, truncated to an integer. -/
def applyConfirmations (b : Option Int) (r : DepositRecord) : DepositRecord :=
  match b with
  | none => r
  | some c => if 0 ≤ c then { r with confirmations := some c.toNat } else r

/-- PATCH handler (deposits/route.ts lines 271-308): require a truthy id
present in the store, optionally overwrite status (validated), readyToMint,
notes (trimmed), confirmations (non-negative only), always refresh
updatedAt, persist. -/
def depositsPATCH (s : List DepositRecord) (body : Option DepositPatchBody)
    (now : Int) :
    Except ErrResp (DepositRecord × List DepositRecord) :=
  match body with
  | none => .error ⟨400, "Invalid JSON body"⟩
  | some b =>
    match b.id with
    | none => .error ⟨422, "Missing or invalid id"⟩
    | some i =>
      if i = "" then .error ⟨422, "Missing or invalid id"⟩
      else
        match storeGet s i with
        | none => .error ⟨422, "Missing or invalid id"⟩
        | some rec0 =>
          match b.status with
          | none =>
            let r5 := { applyConfirmations b.confirmations
              (applyNotes b.notes (applyReadyToMint b.readyToMint rec0)) with
              updatedAt := now }
            .ok (r5, storeSet s r5)
          | some st =>
            match parseDepositStatus st with
            | none => .error ⟨422, "Invalid status"⟩
            | some stv =>
              let r5 := { applyConfirmations b.confirmations
                (applyNotes b.notes (applyReadyToMint b.readyToMint
                  { rec0 with status := stv })) with
                updatedAt := now }
              .ok (r5, storeSet s r5)

/-- Response shape of deposits DELETE. -/
structure DeleteResp where
  deleted : Bool
  id : String
deriving Repr, DecidableEq

/-- DELETE handler (deposits/route.ts lines 310-324): 400 on an unparseable
body, 422 on a missing or empty id, otherwise report whether the id existed
and remove it. -/
def depositsDELETE (s : List DepositRecord) (body : Option (Option String)) :
    Except ErrResp (DeleteResp × List DepositRecord) :=
  match body with
  | none => .error ⟨400, "Invalid JSON body"⟩
  | some bid =>
    match bid with
    | none => .error ⟨422, "Missing id"⟩
    | some i =>
      if i = "" then .error ⟨422, "Missing id"⟩
      else
        let existed := s.any (fun r => r.id == i)
        .ok (⟨existed, i⟩, s.filter (fun r => r.id != i))

/- ============================
   KYC registry (src/app/api/kyc/route.ts)
   ============================ -/

/-- KYC status enumeration from kyc/route.ts line 22. -/
inductive KYCStatus
  | pending
  | approved
  | rejected
deriving Repr, DecidableEq

/-- KYCRecord from kyc/route.ts lines 24-29. -/
structure KYCRecord where
  address : String
  status : KYCStatus
  updatedAt : Int
  notes : Option String
deriving Repr, DecidableEq

/-- store.get for the KYC registry. -/
def kstoreGet (s : List KYCRecord) (a : String) : Option KYCRecord :=
  assocGet (fun r => r.address) s a

/-- store.set for the KYC registry. -/
def kstoreSet (s : List KYCRecord) (r : KYCRecord) : List KYCRecord :=
  assocSet (fun r => r.address) s r

/-- Response of the KYC GET handler: a single record, or the admin list view
with its count. The handler has no error branch in the source, but the
constructor is provided so the response type could express one. -/
inductive KycGetResp
  | single (r : KYCRecord)
  | all (count : Nat) (records : List KYCRecord)
  | err (e : ErrResp)
deriving Repr, DecidableEq

/-- GET handler (kyc/route.ts lines 97-119): when the address query
normalizes, return the stored record or synthesize a pending one without
writing it; otherwise fall through to the admin list view of all records.
The store is returned unchanged on every path. -/
def kycGET (s : List KYCRecord) (qAddr : Option String) (now : Int) :
    KycGetResp × List KYCRecord :=
  match normalizeAddress qAddr with
  | some a =>
    match kstoreGet s a with
    | some r => (.single r, s)
    | none => (.single ⟨a, .pending, now, none⟩, s)
  | none => (.all s.length s, s)

/-- POST body for KYC (kyc/route.ts line 122). -/
structure KycPostBody where
  address : Option String
  notes : Option String
deriving Repr, DecidableEq

/-- POST handler (kyc/route.ts lines 121-139): validate the address, then
build a fresh record literal keeping only the status of any existing record;
the notes field is taken from the body alone (kept only when truthy), so
previously stored notes are not carried over. Returns the record, the
HTTP status (200 existed, 201 created) and the new store. -/
def kycPOST (s : List KYCRecord) (body : Option KycPostBody) (now : Int) :
    Except ErrResp (KYCRecord × Nat × List KYCRecord) :=
  match body with
  | none => .error ⟨400, "Invalid JSON body"⟩
  | some b =>
    match normalizeAddress b.address with
    | none => .error ⟨422, "Invalid or missing address"⟩
    | some a =>
      let existing := kstoreGet s a
      let rec0 : KYCRecord :=
        { address := a
          status := match existing with | some e => e.status | none => .pending
          updatedAt := now
          notes := truthyNotes b.notes }
      .ok (rec0, (match existing with | some _ => 200 | none => 201), kstoreSet s rec0)

/-- PATCH body for KYC (kyc/route.ts line 142). The status arrives as a raw
string so that the invalid-status path is modelled. -/
structure KycPatchBody where
  address : Option String
  status : Option String
  notes : Option String
deriving Repr, DecidableEq

/-- Parse a status string against the allowed KYC status list. -/
def parseKycStatus (s : String) : Option KYCStatus :=
  if s = "pending" then some .pending
  else if s = "approved" then some .approved
  else if s = "rejected" then some .rejected
  else none

/-- PATCH handler (kyc/route.ts lines 141-167): validate address and status,
then replace the record wholesale with a literal built from the body (notes
kept only when truthy, stored notes not carried over). Returns the previous
record (when any), the new record and the new store. -/
def kycPATCH (s : List KYCRecord) (body : Option KycPatchBody) (now : Int) :
    Except ErrResp ((Option KYCRecord × KYCRecord) × List KYCRecord) :=
  match body with
  | none => .error ⟨400, "Invalid JSON body"⟩
  | some b =>
    match normalizeAddress b.address with
    | none => .error ⟨422, "Invalid or missing address"⟩
    | some a =>
      match b.status with
      | none => .error ⟨422, "Invalid or missing status"⟩
      | some st =>
        match parseKycStatus st with
        | none => .error ⟨422, "Invalid or missing status"⟩
        | some stv =>
          let previous := kstoreGet s a
          let rec0 : KYCRecord :=
            { address := a
              status := stv
              updatedAt := now
              notes := truthyNotes b.notes }
          .ok ((previous, rec0), kstoreSet s rec0)

/- ============================
   Mint gate composition (src/app/page.tsx, useKyc and useMintGate)
   ============================ -/

/-- The observable state the mint gate composes over: the last fetched KYC
record (none before any fetch) and the last observed deposit (none before a
deposit is tracked). From useMintGate in page.tsx lines 864-942. -/
structure MintGateObs where
  kyc : Option KYCRecord
  deposit : Option DepositRecord
deriving Repr, DecidableEq

/-- kycApproved from useKyc (page.tsx lines 605-606): the optional-chained
status of the fetched record equals approved. -/
def gateKycApproved (st : MintGateObs) : Bool :=
  match st.kyc with
  | some r => r.status == .approved
  | none => false

/-- readyToMint from useMintGate (page.tsx line 926): the optional-chained
readyToMint flag of the tracked deposit, false when none is tracked. -/
def gateReadyToMint (st : MintGateObs) : Bool :=
  match st.deposit with
  | some d => d.readyToMint
  | none => false

/-- mintEnabled from useMintGate (page.tsx line 927). -/
def gateMintEnabled (st : MintGateObs) : Bool :=
  gateKycApproved st && gateReadyToMint st

/- ============================
   Client deposit polling (src/app/page.tsx, useDeposits poll / stopPolling)
   ============================ -/

/-- What a single poll tick observes: a fetched record (abstracted to the
two fields the stop condition reads), a fetch error, or a hidden document
in which case the tick returns before fetching. -/
inductive PollObs
  | fetched (readyToMint : Bool) (status : DepositStatus)
  | fetchError
  | hidden
deriving Repr, DecidableEq

/-- The terminal observations of page.tsx lines 803-810: a record with
readyToMint or failed status, or any fetch error. -/
def obsTerminal : PollObs → Bool
  | .fetched rm st => rm || (st == .failed)
  | .fetchError => true
  | .hidden => false

/-- One interval slot of the poll loop (page.tsx lines 780-818). The state
is whether the interval is still installed. A stopped session runs no tick
and issues no fetch. A running tick skips the fetch while hidden, and stops
the session after a terminal observation. Returns (fetchIssued, running). -/
def pollTick (running : Bool) (o : PollObs) : Bool × Bool :=
  if running then
    match o with
    | .hidden => (false, true)
    | .fetched rm st => (true, !(rm || (st == .failed)))
    | .fetchError => (true, false)
  else (false, false)

/-- The fetches issued across a sequence of interval slots. -/
def pollFetches : Bool → List PollObs → List Bool
  | _, [] => []
  | run, o :: os =>
    let t := pollTick run o
    t.1 :: pollFetches t.2 os

/- ============================
   Records reachable by Create followed by read-triggered auto-advance only
   ============================ -/

/-- The deposit records produced by the POST record literal and mutated only
by the read-triggered auto-advance, in any number of reads at arbitrary
times. -/
inductive CreateThenReads : DepositRecord → Prop
  | created (i address amount currency : String) (notes : Option String) (now : Int) :
      CreateThenReads (mkDeposit i address amount currency notes now)
  | read (now : Int) (r : DepositRecord) :
      CreateThenReads r → CreateThenReads (maybeAutoAdvance now r)

/- ============================
   Spec-side predicate for the amount format
   ============================ -/

/-- Spec-side reading of the amount format: an unsigned decimal, one or more
integer digits, optionally a dot and one to eighteen fractional digits.
Stated structurally over the character list, independent of the greedy
matcher above, to compare the validator against the spec wording. -/
def isUnsignedDecimalUpTo18 (l : List Char) : Prop :=
  (l ≠ [] ∧ ∀ c ∈ l, c.isDigit = true) ∨
  (∃ a b, l = a ++ '.' :: b ∧ a ≠ [] ∧ (∀ c ∈ a, c.isDigit = true) ∧
    b ≠ [] ∧ b.length ≤ 18 ∧ (∀ c ∈ b, c.isDigit = true))

/- ============================
   Helper lemmas about the store operations
   ============================ -/

/-- Sample canonical address used by concrete witnesses. -/
def sampleAddr : String := "0xaaaaaaaaaaaaaaaaaaaaaaaaaaaaaaaaaaaaaaaa"

/-- Sample freshly created deposit used by concrete witnesses. -/
def sampleDep : DepositRecord := mkDeposit "dep_1" sampleAddr "1000.00" "INR" none 0

/-- Sample approved KYC record used by concrete witnesses. -/
def sampleKycRec : KYCRecord :=
  { address := sampleAddr, status := .approved, updatedAt := 0, notes := some "ok" }

theorem find?_map_replace (keyOf : α → String) (r : α) (s : List α)
    (h : s.any (fun x => keyOf x == keyOf r) = true) :
    (s.map (fun x => if keyOf x == keyOf r then r else x)).find?
      (fun x => keyOf x == keyOf r) = some r := by
  induction s with
  | nil => simp at h
  | cons hd tl ih =>
    by_cases hkey : keyOf hd = keyOf r
    · simp [List.find?, hkey]
    · have hb : (keyOf hd == keyOf r) = false := by simp [hkey]
      have htl : tl.any (fun x => keyOf x == keyOf r) = true := by
        simp only [List.any_cons, Bool.or_eq_true] at h
        rcases h with h | h
        · rw [hb] at h; cases h
        · exact h
      simpa [List.find?, hb] using ih htl

theorem find?_map_replace_ne (keyOf : α → String) (r : α) (i : String)
    (hne : keyOf r ≠ i) (s : List α) :
    (s.map (fun x => if keyOf x == keyOf r then r else x)).find?
      (fun x => keyOf x == i) = s.find? (fun x => keyOf x == i) := by
  induction s with
  | nil => rfl
  | cons hd tl ih =>
    have hbr : (keyOf r == i) = false := by simp [hne]
    by_cases hkey : keyOf hd = keyOf r
    · have hbhd : (keyOf hd == i) = false := by simp [hkey, hne]
      simpa [List.find?, hkey, hbr, hbhd] using ih
    · have hb : (keyOf hd == keyOf r) = false := by simp [hkey]
      by_cases hp : keyOf hd = i
      · have hbp : (keyOf hd == i) = true := by simp [hp]
        simp [List.find?, hb, hbp]
      · have hbp : (keyOf hd == i) = false := by simp [hp]
        simpa [List.find?, hb, hbp] using ih

theorem find?_append_last (p : α → Bool) (s : List α) (r : α)
    (h : ∀ x ∈ s, p x = false) (hr : p r = true) :
    (s ++ [r]).find? p = some r := by
  induction s with
  | nil => simp [List.find?, hr]
  | cons hd tl ih =>
    have hb : p hd = false := h hd (by simp)
    simpa [List.find?, hb] using ih (fun x hx => h x (by simp [hx]))

theorem find?_append_last_ne (p : α → Bool) (s : List α) (r : α)
    (hr : p r = false) :
    (s ++ [r]).find? p = s.find? p := by
  induction s with
  | nil => simp [List.find?, hr]
  | cons hd tl ih =>
    by_cases hh : p hd = true
    · simp [List.find?, hh]
    · have hb : p hd = false := by simpa using hh
      simpa [List.find?, hb] using ih

/-- Looking up the key just written returns the written record. -/
theorem assocGet_assocSet_self (keyOf : α → String) (s : List α) (r : α) :
    assocGet keyOf (assocSet keyOf s r) (keyOf r) = some r := by
  unfold assocGet assocSet
  split
  · exact find?_map_replace keyOf r s (by assumption)
  · refine find?_append_last _ s r ?_ (by simp)
    intro x hx
    by_contra hc
    rename_i hany
    exact hany (List.any_eq_true.mpr ⟨x, hx, by simpa using hc⟩)

/-- Writing one key does not change the lookup of a different key. -/
theorem assocGet_assocSet_ne (keyOf : α → String) (s : List α) (r : α) (i : String)
    (hne : keyOf r ≠ i) :
    assocGet keyOf (assocSet keyOf s r) i = assocGet keyOf s i := by
  unfold assocGet assocSet
  split
  · exact find?_map_replace_ne keyOf r i hne s
  · exact find?_append_last_ne _ s r (by simpa using hne)

/-- Folding writes over a list of records none of whose keys is the looked-up
key does not change the lookup. -/
theorem assocGet_foldl_assocSet_not_mem (keyOf : α → String) (rs : List α)
    (s : List α) (i : String) (h : ∀ r ∈ rs, keyOf r ≠ i) :
    assocGet keyOf (rs.foldl (assocSet keyOf) s) i = assocGet keyOf s i := by
  induction rs generalizing s with
  | nil => rfl
  | cons hd tl ih =>
    simp only [List.foldl_cons]
    rw [ih _ (fun r hr => h r (List.mem_cons_of_mem _ hr))]
    exact assocGet_assocSet_ne keyOf s hd i (h hd (List.mem_cons_self _ _))

/-- Folding writes over records with pairwise distinct keys makes each of
them retrievable afterwards. -/
theorem assocGet_foldl_assocSet_mem (keyOf : α → String) (rs : List α)
    (s : List α) (r : α) (hmem : r ∈ rs)
    (hunique : rs.Pairwise (fun x y => keyOf x ≠ keyOf y)) :
    assocGet keyOf (rs.foldl (assocSet keyOf) s) (keyOf r) = some r := by
  induction rs generalizing s with
  | nil => cases hmem
  | cons hd tl ih =>
    simp only [List.foldl_cons]
    rcases List.mem_cons.mp hmem with hEq | hTl
    · subst hEq
      have hni : ∀ x ∈ tl, keyOf x ≠ keyOf r := by
        intro x hx hc
        exact (List.pairwise_cons.mp hunique).1 x hx hc.symm
      rw [assocGet_foldl_assocSet_not_mem keyOf tl _ (keyOf r) hni]
      exact assocGet_assocSet_self keyOf s r
    · exact ih _ hTl (List.pairwise_cons.mp hunique).2

/-- Auto-advance never changes the id of a record. -/
theorem maybeAutoAdvance_id (now : Int) (r : DepositRecord) :
    (maybeAutoAdvance now r).id = r.id := by
  unfold maybeAutoAdvance
  split <;> rfl

/-- Auto-advance is the identity before the confirmation window elapses. -/
theorem maybeAutoAdvance_eq_self_of_lt (now : Int) (r : DepositRecord)
    (h : now - r.createdAt < AUTO_CONFIRM_MS) : maybeAutoAdvance now r = r := by
  unfold maybeAutoAdvance
  rw [if_neg]
  rintro ⟨-, hge⟩
  exact absurd hge (not_le.mpr h)

/-- Auto-advance is the identity on a confirmed record. -/
theorem maybeAutoAdvance_eq_self_of_confirmed (now : Int) (r : DepositRecord)
    (h : r.status = .confirmed) : maybeAutoAdvance now r = r := by
  unfold maybeAutoAdvance
  rw [if_neg]
  rintro ⟨hp | hp, -⟩ <;> rw [h] at hp <;> cases hp

/-- Auto-advance is the identity on a failed record. -/
theorem maybeAutoAdvance_eq_self_of_failed (now : Int) (r : DepositRecord)
    (h : r.status = .failed) : maybeAutoAdvance now r = r := by
  unfold maybeAutoAdvance
  rw [if_neg]
  rintro ⟨hp | hp, -⟩ <;> rw [h] at hp <;> cases hp

/-- A found record has the looked-up id. -/
theorem storeGet_some_id (s : List DepositRecord) (i : String)
    (r : DepositRecord) (h : storeGet s i = some r) : r.id = i := by
  have := List.find?_some h
  simpa using this

/-- After persisting the advanced versions of records with pairwise distinct
ids, each advanced version is what the store returns for its id. -/
theorem storeGet_foldl_advanced (s rs : List DepositRecord) (now : Int)
    (hpw : rs.Pairwise (fun x y => x.id ≠ y.id)) (r : DepositRecord)
    (hr : r ∈ rs) :
    storeGet ((rs.map (maybeAutoAdvance now)).foldl storeSet s) r.id
      = some (maybeAutoAdvance now r) := by
  have hmem : maybeAutoAdvance now r ∈ rs.map (maybeAutoAdvance now) :=
    List.mem_map_of_mem _ hr
  have hpw2 : (rs.map (maybeAutoAdvance now)).Pairwise
      (fun x y => x.id ≠ y.id) := by
    rw [List.pairwise_map]
    refine hpw.imp ?_
    intro a b h
    simpa [maybeAutoAdvance_id] using h
  have h2 := assocGet_foldl_assocSet_mem (fun r => r.id)
    (rs.map (maybeAutoAdvance now)) s (maybeAutoAdvance now r) hmem hpw2
  have h3 : storeGet ((rs.map (maybeAutoAdvance now)).foldl storeSet s)
      ((maybeAutoAdvance now r).id) = some (maybeAutoAdvance now r) := h2
  rwa [maybeAutoAdvance_id] at h3

/-- Repeated reads of a confirmed record never change it. -/
theorem foldl_advance_confirmed (r : DepositRecord) (h : r.status = .confirmed) :
    ∀ nows : List Int, nows.foldl (fun x n => maybeAutoAdvance n x) r = r
  | [] => rfl
  | n :: ns => by
    rw [List.foldl_cons, maybeAutoAdvance_eq_self_of_confirmed n r h]
    exact foldl_advance_confirmed r h ns

/- ============================
   Claim theorems
   ============================ -/

/-- C1: for every deposit record read via Get(id), ListByAddress or ListAll,
if its status is pending or confirming and at least 8000 ms elapsed since
createdAt, the read transitions the stored record to status confirmed, sets
readyToMint, increments confirmations by one and refreshes updatedAt; if
the guard does not hold the record is returned unchanged. Get(id) responds
with the advanced record and persists it; both list reads respond with the
advanced version of every selected record and persist each one. -/
theorem c1_read_auto_advance (s : List DepositRecord) (rec0 : DepositRecord)
    (i a : String) (now : Int) :
    ((rec0.status = .pending ∨ rec0.status = .confirming) →
      now - rec0.createdAt ≥ AUTO_CONFIRM_MS →
      maybeAutoAdvance now rec0 =
        { rec0 with
          status := .confirmed
          readyToMint := true
          confirmations := some (rec0.confirmations.getD 0 + 1)
          updatedAt := now }) ∧
    (¬ ((rec0.status = .pending ∨ rec0.status = .confirming) ∧
        now - rec0.createdAt ≥ AUTO_CONFIRM_MS) →
      maybeAutoAdvance now rec0 = rec0) ∧
    (storeGet s i = some rec0 →
      depositsGetById s i now =
        .ok (maybeAutoAdvance now rec0, storeSet s (maybeAutoAdvance now rec0)) ∧
      storeGet (storeSet s (maybeAutoAdvance now rec0)) i =
        some (maybeAutoAdvance now rec0)) ∧
    ((depositsListByAddress s a now).1 =
      (s.filter (fun r => r.address == a)).map (maybeAutoAdvance now)) ∧
    ((depositsListAll s now).1 = s.map (maybeAutoAdvance now)) ∧
    (s.Pairwise (fun x y => x.id ≠ y.id) →
      ∀ r ∈ s.filter (fun r => r.address == a),
        storeGet (depositsListByAddress s a now).2 r.id =
          some (maybeAutoAdvance now r)) ∧
    (s.Pairwise (fun x y => x.id ≠ y.id) →
      ∀ r ∈ s,
        storeGet (depositsListAll s now).2 r.id =
          some (maybeAutoAdvance now r)) := by
  refine ⟨?_, ?_, ?_, rfl, rfl, ?_, ?_⟩
  · intro hpc hge
    unfold maybeAutoAdvance
    rw [if_pos ⟨hpc, hge⟩]
  · intro hng
    unfold maybeAutoAdvance
    rw [if_neg hng]
  · intro hget
    have hid : rec0.id = i := storeGet_some_id s i rec0 hget
    constructor
    · unfold depositsGetById
      rw [hget]
    · have h2 := assocGet_assocSet_self (fun r => r.id) s (maybeAutoAdvance now rec0)
      have h3 : storeGet (storeSet s (maybeAutoAdvance now rec0))
          ((maybeAutoAdvance now rec0).id) = some (maybeAutoAdvance now rec0) := h2
      rwa [maybeAutoAdvance_id, hid] at h3
  · intro hpw r hr
    exact storeGet_foldl_advanced s _ now (hpw.filter _) r hr
  · intro hpw r hr
    exact storeGet_foldl_advanced s s now hpw r hr

/-- C1 witness: a pending deposit created at time 0 and read at time 8000 is
advanced to confirmed, readyToMint, one confirmation, updatedAt 8000. -/
theorem c1_witness :
    maybeAutoAdvance 8000 sampleDep =
      { sampleDep with
        status := .confirmed
        readyToMint := true
        confirmations := some (sampleDep.confirmations.getD 0 + 1)
        updatedAt := 8000 } :=
  (c1_read_auto_advance [] sampleDep "dep_1" sampleAddr 8000).1
    (Or.inl rfl) (by decide)

/-- C6: auto-advance applied by Get(id) is idempotent below the confirmation
window: a second immediate Get returns the same record, so status,
readyToMint and confirmations agree; and once a record is confirmed, any
sequence of further reads leaves it entirely unchanged, in particular its
confirmations counter. -/
theorem c6_get_idempotent (s s1 : List DepositRecord) (i : String)
    (rec0 r1 : DepositRecord) (now1 now2 : Int)
    (hget : storeGet s i = some rec0)
    (h1 : now1 - rec0.createdAt < AUTO_CONFIRM_MS)
    (h2 : now2 - rec0.createdAt < AUTO_CONFIRM_MS)
    (hfirst : depositsGetById s i now1 = .ok (r1, s1)) :
    (depositsGetById s1 i now2 = .ok (r1, storeSet s1 r1) ∧
      r1.status = rec0.status ∧ r1.readyToMint = rec0.readyToMint ∧
      r1.confirmations = rec0.confirmations) ∧
    (∀ (r : DepositRecord) (nows : List Int), r.status = .confirmed →
      nows.foldl (fun x n => maybeAutoAdvance n x) r = r) := by
  have hid : rec0.id = i := storeGet_some_id s i rec0 hget
  have hadv1 : maybeAutoAdvance now1 rec0 = rec0 :=
    maybeAutoAdvance_eq_self_of_lt now1 rec0 h1
  have hadv2 : maybeAutoAdvance now2 rec0 = rec0 :=
    maybeAutoAdvance_eq_self_of_lt now2 rec0 h2
  have hfirst2 : depositsGetById s i now1 = .ok (rec0, storeSet s rec0) := by
    unfold depositsGetById
    simp only [hget, hadv1]
  rw [hfirst2] at hfirst
  have hr1 : rec0 = r1 := congrArg Prod.fst (Except.ok.inj hfirst)
  have hs1 : storeSet s rec0 = s1 := congrArg Prod.snd (Except.ok.inj hfirst)
  refine ⟨⟨?_, ?_, ?_, ?_⟩, ?_⟩
  · have hget2 : storeGet s1 i = some rec0 := by
      rw [← hs1]
      have h3 := assocGet_assocSet_self (fun r => r.id) s rec0
      have h4 : storeGet (storeSet s rec0) rec0.id = some rec0 := h3
      rwa [hid] at h4
    unfold depositsGetById
    simp only [hget2]
    rw [hadv2, hr1]
  · rw [← hr1]
  · rw [← hr1]
  · rw [← hr1]
  · intro r nows hconf
    exact foldl_advance_confirmed r hconf nows

/-- C6 witness: reading the sample pending deposit twice at 1000 ms returns
the unchanged record both times. -/
theorem c6_witness :
    depositsGetById (storeSet [sampleDep] sampleDep) "dep_1" 1000 =
      .ok (sampleDep, storeSet (storeSet [sampleDep] sampleDep) sampleDep) :=
  (c6_get_idempotent [sampleDep] (storeSet [sampleDep] sampleDep) "dep_1"
    sampleDep sampleDep 1000 1000 (by decide) (by decide) (by decide)
    rfl).1.1

/-- C2: for every deposit record produced by Create and mutated only by the
read-triggered auto-advance, readyToMint holds exactly when status is
confirmed; in particular readyToMint is false while pending or confirming
and never true while failed. -/
theorem c2_ready_iff_confirmed (r : DepositRecord) (h : CreateThenReads r) :
    (r.readyToMint = true ↔ r.status = .confirmed) ∧
    ((r.status = .pending ∨ r.status = .confirming) → r.readyToMint = false) ∧
    (r.status = .failed → r.readyToMint = false) := by
  have key : r.readyToMint = true ↔ r.status = .confirmed := by
    induction h with
    | created i address amount currency notes now => simp [mkDeposit]
    | read now r hr ih =>
      unfold maybeAutoAdvance
      split
      · simp
      · exact ih
  refine ⟨key, ?_, ?_⟩
  · intro hs
    cases hrm : r.readyToMint
    · rfl
    · rcases hs with hs | hs <;>
        exact absurd (key.mp hrm) (by simp [hs])
  · intro hs
    cases hrm : r.readyToMint
    · rfl
    · exact absurd (key.mp hrm) (by simp [hs])

/-- C2 witness: a freshly created deposit is pending and not readyToMint. -/
theorem c2_witness :
    (mkDeposit "dep_1" sampleAddr "1000.00" "INR" none 0).readyToMint = false :=
  (c2_ready_iff_confirmed _
    (CreateThenReads.created "dep_1" sampleAddr "1000.00" "INR" none 0)).2.1
    (Or.inl rfl)

/-- C5: mintEnabled holds exactly when the observed KYC status is approved
and the tracked deposit is readyToMint; with no tracked deposit,
readyToMint and hence mintEnabled are false. -/
theorem c5_mint_gate (st : MintGateObs) :
    (gateMintEnabled st = true ↔
      (Option.map KYCRecord.status st.kyc = some KYCStatus.approved ∧
        gateReadyToMint st = true)) ∧
    (st.deposit = none → gateReadyToMint st = false ∧ gateMintEnabled st = false) ∧
    (∀ d, st.deposit = some d → gateReadyToMint st = d.readyToMint) := by
  obtain ⟨k, d⟩ := st
  refine ⟨?_, ?_, ?_⟩
  · cases k with
    | none => simp [gateMintEnabled, gateKycApproved]
    | some kr =>
      cases d with
      | none => simp [gateMintEnabled, gateKycApproved, gateReadyToMint]
      | some dr =>
        simp [gateMintEnabled, gateKycApproved, gateReadyToMint,
          Bool.and_eq_true, beq_iff_eq]
  · intro hd
    cases d with
    | none => exact ⟨rfl, by cases k <;> simp [gateMintEnabled, gateKycApproved, gateReadyToMint]⟩
    | some dr => cases hd
  · intro d2 hd
    cases d with
    | none => cases hd
    | some dr =>
      cases hd
      rfl

/-- C5 witness: with no KYC observation and no tracked deposit both
readyToMint and mintEnabled are false. -/
theorem c5_witness :
    gateReadyToMint ⟨none, none⟩ = false ∧ gateMintEnabled ⟨none, none⟩ = false :=
  (c5_mint_gate ⟨none, none⟩).2.1 rfl

/-- C7: deposits DELETE on an absent id succeeds with deleted false and the
echoed id, leaving the store unchanged; on a present id it succeeds with
deleted true and removes the record. -/
theorem c7_delete (s : List DepositRecord) (i : String) (hi : i ≠ "") :
    (storeGet s i = none →
      depositsDELETE s (some (some i)) = .ok (⟨false, i⟩, s)) ∧
    (∀ r, storeGet s i = some r →
      ∃ s2, depositsDELETE s (some (some i)) = .ok (⟨true, i⟩, s2) ∧
        storeGet s2 i = none) := by
  constructor
  · intro hnone
    have hnone2 : s.find? (fun x => x.id == i) = none := hnone
    have hall : ∀ x ∈ s, ¬ ((x.id == i) = true) := List.find?_eq_none.mp hnone2
    have hany : (s.any fun r => r.id == i) = false := by
      rw [← Bool.not_eq_true, List.any_eq_true]
      rintro ⟨x, hx, hpx⟩
      exact hall x hx hpx
    have hfilter : (s.filter fun r => r.id != i) = s := by
      rw [List.filter_eq_self]
      intro x hx
      simpa using hall x hx
    simp only [depositsDELETE]
    rw [if_neg hi, hany, hfilter]
  · intro r hr
    have hr2 : s.find? (fun x => x.id == i) = some r := hr
    have hmem : r ∈ s := List.mem_of_find?_eq_some hr2
    have hpr : (r.id == i) = true := by
      have := List.find?_some hr2
      simpa using this
    have hany : (s.any fun r => r.id == i) = true :=
      List.any_eq_true.mpr ⟨r, hmem, hpr⟩
    refine ⟨s.filter fun r => r.id != i, ?_, ?_⟩
    · simp only [depositsDELETE]
      rw [if_neg hi, hany]
    · rw [show storeGet (s.filter fun r => r.id != i) i =
        (s.filter fun r => r.id != i).find? (fun r => r.id == i) from rfl]
      rw [List.find?_eq_none]
      intro x hx
      have := (List.mem_filter.mp hx).2
      simpa using this

/-- C7 witness: deleting an unknown id from the empty store returns deleted
false with the echoed id and no error. -/
theorem c7_witness :
    depositsDELETE [] (some (some "dep_x")) = .ok (⟨false, "dep_x"⟩, []) :=
  (c7_delete [] "dep_x" (by decide)).1 rfl

/-- A stopped polling session issues no fetch in any later slot. -/
theorem pollFetches_stopped (os : List PollObs) :
    pollFetches false os = List.replicate os.length false := by
  induction os with
  | nil => rfl
  | cons o os ih =>
    simp [pollFetches, pollTick, ih, List.replicate_succ]

/-- Processing a terminal observation leaves the session stopped, whatever
the prior state. -/
theorem pollTick_terminal (st : Bool) (o : PollObs) (h : obsTerminal o = true) :
    (pollTick st o).2 = false := by
  cases st
  · simp [pollTick]
  · cases o with
    | fetched rm st2 =>
      simp only [obsTerminal] at h
      simp [pollTick, h]
    | fetchError => rfl
    | hidden => cases h

/-- After the slot that processes a terminal observation, no later slot
issues a fetch, whatever the state the session entered the trace in. -/
theorem pollFetches_after_terminal (o : PollObs) (h : obsTerminal o = true)
    (post : List PollObs) :
    ∀ (st : Bool) (pre : List PollObs),
      ∀ b ∈ (pollFetches st (pre ++ o :: post)).drop (pre.length + 1), b = false := by
  intro st pre
  induction pre generalizing st with
  | nil =>
    intro b hb
    rw [show pollFetches st ([] ++ o :: post) =
      (pollTick st o).1 :: pollFetches (pollTick st o).2 post from rfl] at hb
    simp only [List.length_nil, Nat.zero_add, List.drop_succ_cons,
      List.drop_zero] at hb
    rw [pollTick_terminal st o h, pollFetches_stopped] at hb
    exact List.eq_of_mem_replicate hb
  | cons p ps ih =>
    intro b hb
    rw [show (p :: ps) ++ o :: post = p :: (ps ++ o :: post) from rfl] at hb
    rw [show pollFetches st (p :: (ps ++ o :: post)) =
      (pollTick st p).1 :: pollFetches (pollTick st p).2 (ps ++ o :: post)
      from rfl] at hb
    simp only [List.length_cons, List.drop_succ_cons] at hb
    exact ih (pollTick st p).2 b hb

/-- C8: once deposit polling observes a record with readyToMint or failed
status, or any fetch error, the session stops: that slot ends with the
interval removed and every later slot of the trace issues no fetch. -/
theorem c8_poll_terminal_stops (pre post : List PollObs) (o : PollObs)
    (h : obsTerminal o = true) :
    (pollTick true o).2 = false ∧
    ((pollFetches true (pre ++ o :: post)).drop (pre.length + 1)).all
      (fun b => b == false) = true := by
  refine ⟨pollTick_terminal true o h, ?_⟩
  rw [List.all_eq_true]
  intro b hb
  have := pollFetches_after_terminal o h post true pre b hb
  simp [this]

/-- C8 witness: after a fetch error in the first slot, the remaining two
slots issue no fetch. -/
theorem c8_witness :
    ((pollFetches true ([] ++ PollObs.fetchError ::
      [PollObs.hidden, PollObs.fetched false DepositStatus.pending])).drop
        (List.length ([] : List PollObs) + 1)).all (fun b => b == false) = true :=
  (c8_poll_terminal_stops []
    [PollObs.hidden, PollObs.fetched false DepositStatus.pending]
    PollObs.fetchError rfl).2

/-- The readyToMint assignment touches no other field. -/
theorem applyReadyToMint_frame (b : Option Bool) (r : DepositRecord) :
    (applyReadyToMint b r).id = r.id ∧
    (applyReadyToMint b r).address = r.address ∧
    (applyReadyToMint b r).amount = r.amount ∧
    (applyReadyToMint b r).currency = r.currency ∧
    (applyReadyToMint b r).createdAt = r.createdAt ∧
    (applyReadyToMint b r).fiatRefId = r.fiatRefId ∧
    (applyReadyToMint b r).chainTxHash = r.chainTxHash := by
  cases b <;> exact ⟨rfl, rfl, rfl, rfl, rfl, rfl, rfl⟩

/-- The notes assignment touches no other field. -/
theorem applyNotes_frame (b : Option String) (r : DepositRecord) :
    (applyNotes b r).id = r.id ∧
    (applyNotes b r).address = r.address ∧
    (applyNotes b r).amount = r.amount ∧
    (applyNotes b r).currency = r.currency ∧
    (applyNotes b r).createdAt = r.createdAt ∧
    (applyNotes b r).fiatRefId = r.fiatRefId ∧
    (applyNotes b r).chainTxHash = r.chainTxHash := by
  cases b <;> exact ⟨rfl, rfl, rfl, rfl, rfl, rfl, rfl⟩

/-- The confirmations assignment touches no other field. -/
theorem applyConfirmations_frame (b : Option Int) (r : DepositRecord) :
    (applyConfirmations b r).id = r.id ∧
    (applyConfirmations b r).address = r.address ∧
    (applyConfirmations b r).amount = r.amount ∧
    (applyConfirmations b r).currency = r.currency ∧
    (applyConfirmations b r).createdAt = r.createdAt ∧
    (applyConfirmations b r).fiatRefId = r.fiatRefId ∧
    (applyConfirmations b r).chainTxHash = r.chainTxHash := by
  cases b with
  | none => exact ⟨rfl, rfl, rfl, rfl, rfl, rfl, rfl⟩
  | some c =>
    by_cases h0 : (0:Int) ≤ c <;> simp [applyConfirmations, h0]

/-- C9: a successful deposits PATCH never modifies id, address, amount,
currency, createdAt, fiatRefId or chainTxHash of the targeted record; the
store change is exactly the write-back of the updated record. -/
theorem c9_patch_frame (s : List DepositRecord) (b : DepositPatchBody)
    (now : Int) (i : String) (rec0 r2 : DepositRecord) (s2 : List DepositRecord)
    (hid : b.id = some i) (hrec : storeGet s i = some rec0)
    (hok : depositsPATCH s (some b) now = .ok (r2, s2)) :
    r2.id = rec0.id ∧ r2.address = rec0.address ∧ r2.amount = rec0.amount ∧
    r2.currency = rec0.currency ∧ r2.createdAt = rec0.createdAt ∧
    r2.fiatRefId = rec0.fiatRefId ∧ r2.chainTxHash = rec0.chainTxHash ∧
    s2 = storeSet s r2 := by
  simp only [depositsPATCH, hid] at hok
  by_cases hie : i = ""
  · rw [if_pos hie] at hok
    cases hok
  · rw [if_neg hie, hrec] at hok
    cases hst : b.status with
    | none =>
      rw [hst] at hok
      have hinj := Except.ok.inj hok
      rw [Prod.mk.injEq] at hinj
      obtain ⟨hfst, hsnd⟩ := hinj
      rw [← hfst]
      obtain ⟨hc1, hc2, hc3, hc4, hc5, hc6, hc7⟩ :=
        applyConfirmations_frame b.confirmations
          (applyNotes b.notes (applyReadyToMint b.readyToMint rec0))
      obtain ⟨hn1, hn2, hn3, hn4, hn5, hn6, hn7⟩ :=
        applyNotes_frame b.notes (applyReadyToMint b.readyToMint rec0)
      obtain ⟨hm1, hm2, hm3, hm4, hm5, hm6, hm7⟩ :=
        applyReadyToMint_frame b.readyToMint rec0
      refine ⟨?_, ?_, ?_, ?_, ?_, ?_, ?_, ?_⟩
      · simpa [hc1, hn1] using hm1
      · simpa [hc2, hn2] using hm2
      · simpa [hc3, hn3] using hm3
      · simpa [hc4, hn4] using hm4
      · simpa [hc5, hn5] using hm5
      · simpa [hc6, hn6] using hm6
      · simpa [hc7, hn7] using hm7
      · rw [← hsnd]
    | some st =>
      rw [hst] at hok
      simp only [] at hok
      cases hpst : parseDepositStatus st with
      | none =>
        rw [hpst] at hok
        cases hok
      | some stv =>
        rw [hpst] at hok
        have hinj := Except.ok.inj hok
        rw [Prod.mk.injEq] at hinj
        obtain ⟨hfst, hsnd⟩ := hinj
        rw [← hfst]
        obtain ⟨hc1, hc2, hc3, hc4, hc5, hc6, hc7⟩ :=
          applyConfirmations_frame b.confirmations
            (applyNotes b.notes (applyReadyToMint b.readyToMint
              { rec0 with status := stv }))
        obtain ⟨hn1, hn2, hn3, hn4, hn5, hn6, hn7⟩ :=
          applyNotes_frame b.notes (applyReadyToMint b.readyToMint
            { rec0 with status := stv })
        obtain ⟨hm1, hm2, hm3, hm4, hm5, hm6, hm7⟩ :=
          applyReadyToMint_frame b.readyToMint { rec0 with status := stv }
        refine ⟨?_, ?_, ?_, ?_, ?_, ?_, ?_, ?_⟩
        · simpa [hc1, hn1] using hm1
        · simpa [hc2, hn2] using hm2
        · simpa [hc3, hn3] using hm3
        · simpa [hc4, hn4] using hm4
        · simpa [hc5, hn5] using hm5
        · simpa [hc6, hn6] using hm6
        · simpa [hc7, hn7] using hm7
        · rw [← hsnd]

/-- Deposit record produced by patching the sample deposit to failed with
readyToMint forced on, used by the C9 witness. -/
def samplePatched : DepositRecord :=
  { sampleDep with status := .failed, readyToMint := true, updatedAt := 5 }

/-- C9 witness: patching the sample deposit to failed with readyToMint true
leaves id, address, amount, currency, createdAt and the optional refs
untouched. -/
theorem c9_witness :
    samplePatched.id = sampleDep.id ∧
    samplePatched.address = sampleDep.address ∧
    samplePatched.amount = sampleDep.amount ∧
    samplePatched.currency = sampleDep.currency ∧
    samplePatched.createdAt = sampleDep.createdAt ∧
    samplePatched.fiatRefId = sampleDep.fiatRefId ∧
    samplePatched.chainTxHash = sampleDep.chainTxHash ∧
    storeSet [sampleDep] samplePatched = storeSet [sampleDep] samplePatched :=
  (c9_patch_frame [sampleDep]
    ⟨some "dep_1", some "failed", some true, none, none⟩ 5 "dep_1"
    sampleDep samplePatched (storeSet [sampleDep] samplePatched)
    rfl rfl rfl)

/-- Greedy digit run over a list ending in a dot group: the takeWhile stops
exactly at the dot. -/
theorem takeWhile_digits_append (a b : List Char)
    (ha : ∀ c ∈ a, c.isDigit = true) :
    ((a ++ '.' :: b).takeWhile Char.isDigit) = a := by
  induction a with
  | nil =>
    have hdot : Char.isDigit '.' = false := rfl
    simp [List.takeWhile_cons, hdot]
  | cons hd tl ih =>
    have hhd : Char.isDigit hd = true := ha hd (by simp)
    simp [List.takeWhile_cons, hhd, ih (fun c hc => ha c (by simp [hc]))]

/-- Greedy digit run over a list ending in a dot group: the dropWhile starts
exactly at the dot. -/
theorem dropWhile_digits_append (a b : List Char)
    (ha : ∀ c ∈ a, c.isDigit = true) :
    ((a ++ '.' :: b).dropWhile Char.isDigit) = '.' :: b := by
  induction a with
  | nil =>
    have hdot : Char.isDigit '.' = false := rfl
    simp [List.dropWhile_cons, hdot]
  | cons hd tl ih =>
    have hhd : Char.isDigit hd = true := ha hd (by simp)
    simp [List.dropWhile_cons, hhd, ih (fun c hc => ha c (by simp [hc]))]

/-- The greedy matcher agrees with the structural reading of AMOUNT_REGEX:
a string of one or more digits, optionally followed by a dot and one to
eighteen digits. -/
theorem amountRegexTest_iff (l : List Char) :
    amountRegexTest ⟨l⟩ = true ↔ isUnsignedDecimalUpTo18 l := by
  unfold amountRegexTest
  rw [Bool.and_eq_true]
  constructor
  · rintro ⟨hip, hrest⟩
    rw [decide_eq_true_eq] at hip
    have hipall : ∀ c ∈ l.takeWhile Char.isDigit, c.isDigit = true :=
      fun c hc => List.mem_takeWhile_imp hc
    have hsplit : l.takeWhile Char.isDigit ++ l.dropWhile Char.isDigit = l :=
      List.takeWhile_append_dropWhile Char.isDigit l
    cases hdrop : l.dropWhile Char.isDigit with
    | nil =>
      left
      rw [hdrop, List.append_nil] at hsplit
      constructor
      · rw [← hsplit]; exact hip
      · intro c hc
        rw [← hsplit] at hc
        exact hipall c hc
    | cons x fp =>
      rw [hdrop] at hrest
      simp only [fracPartTest] at hrest
      rw [Bool.and_eq_true, Bool.and_eq_true, Bool.and_eq_true] at hrest
      obtain ⟨⟨⟨hdot, hfne⟩, hflen⟩, hfall⟩ := hrest
      right
      refine ⟨l.takeWhile Char.isDigit, fp, ?_, hip, hipall, ?_, ?_, ?_⟩
      · have hx : x = '.' := by simpa using hdot
        conv_lhs => rw [← hsplit]
        rw [hdrop, hx]
      · simpa using hfne
      · simpa using hflen
      · intro c hc
        exact List.all_eq_true.mp hfall c hc
  · rintro (⟨hne, hall⟩ | ⟨a, b, hl, hane, haall, hbne, hblen, hball⟩)
    · have htake : l.takeWhile Char.isDigit = l :=
        List.takeWhile_eq_self_iff.mpr (fun x hx => hall x hx)
      have hdropn : l.dropWhile Char.isDigit = [] :=
        List.dropWhile_eq_nil_iff.mpr (fun x hx => hall x hx)
      constructor
      · rw [decide_eq_true_eq, htake]; exact hne
      · rw [hdropn]; rfl
    · subst hl
      have htake := takeWhile_digits_append a b haall
      have hdropc := dropWhile_digits_append a b haall
      constructor
      · rw [decide_eq_true_eq, htake]; exact hane
      · rw [hdropc]
        simp only [fracPartTest]
        rw [Bool.and_eq_true, Bool.and_eq_true, Bool.and_eq_true]
        exact ⟨⟨⟨rfl, by simpa using hbne⟩, by simpa using hblen⟩,
          List.all_eq_true.mpr (fun c hc => hball c hc)⟩

/-- C3 counterexample: the validator accepts the amount string of a single
zero digit, whose decimal value is not strictly positive, and the Create
handler accepts it too, so acceptance is not equivalent to strict
positivity. -/
theorem c3_counterexample :
    isValidAmountStr "0" = true ∧ decimalPositive "0" = false ∧
    isOkResp (depositsPOST []
      (some ⟨some sampleAddr, some "0", none, none⟩) "dep_1" 0) = true := by
  refine ⟨by decide, by decide, by decide⟩

/-- C3 amended: Create accepts a string amount exactly when its trim is an
unsigned decimal of one or more integer digits with an optional fraction of
one to eighteen digits; the format check does not require a nonzero value,
so zero amounts pass. A rejected amount yields the 422 amount error. The
18-fractional-digit boundary string is accepted; the 19-digit one is
rejected. -/
theorem c3_amount_validation (s : String) (store : List DepositRecord)
    (b : DepositPostBody) (freshId : String) (now : Int) (addr : String)
    (haddr : normalizeAddress b.address = some addr) (hamt : b.amount = some s) :
    (isValidAmountStr s = true ↔ isUnsignedDecimalUpTo18 (jsTrim s).data) ∧
    (isOkResp (depositsPOST store (some b) freshId now) = true ↔
      isUnsignedDecimalUpTo18 (jsTrim s).data) ∧
    (isValidAmountStr s = false →
      depositsPOST store (some b) freshId now =
        .error ⟨422, "Invalid or missing amount"⟩) ∧
    isValidAmountStr "0.000000000000000001" = true ∧
    isValidAmountStr "0.0000000000000000001" = false := by
  have hiff : isValidAmountStr s = true ↔ isUnsignedDecimalUpTo18 (jsTrim s).data :=
    amountRegexTest_iff (trimList s.data)
  have hres : isOkResp (depositsPOST store (some b) freshId now) =
      isValidAmountStr s := by
    simp only [depositsPOST, haddr, hamt]
    by_cases hv : isValidAmountStr s = true
    · rw [if_pos hv, hv]; rfl
    · rw [if_neg hv]
      have hv2 : isValidAmountStr s = false := by simpa using hv
      rw [hv2]; rfl
  refine ⟨hiff, ?_, ?_, by decide, by decide⟩
  · rw [hres]; exact hiff
  · intro hf
    simp only [depositsPOST, haddr, hamt]
    rw [if_neg (by simp [hf])]

/-- C3 witness: the 18-fractional-digit boundary amount is accepted. -/
theorem c3_witness : isValidAmountStr "0.000000000000000001" = true :=
  (c3_amount_validation "0.000000000000000001" []
    ⟨some sampleAddr, some "0.000000000000000001", none, none⟩ "dep_1" 0
    sampleAddr (by decide) rfl).2.2.2.1

/-- C4 counterexample: a KYC GET whose address query fails validation does
not fail with a 422 InvalidIdentity error; it falls through to the admin
list view and returns every stored record with the store unchanged. -/
theorem c4_counterexample :
    kycGET [sampleKycRec] (some "not-an-address") 5 =
      (.all 1 [sampleKycRec], [sampleKycRec]) ∧
    (kycGET [sampleKycRec] (some "not-an-address") 5).1 ≠
      .err ⟨422, "Invalid or missing address"⟩ := by
  refine ⟨by decide, by decide⟩

/-- C4 amended: for every valid address with no persisted KYC record, GET
returns a synthesized pending record without writing it, so the store is
unchanged and a subsequent List still contains no record for that address;
for a query address failing validation GET does not fail but behaves as
List, returning all records; the store is unchanged by every GET. -/
theorem c4_kyc_get (s : List KYCRecord) (q : Option String) (now : Int)
    (a : String) :
    (normalizeAddress q = some a → kstoreGet s a = none →
      kycGET s q now = (.single ⟨a, .pending, now, none⟩, s) ∧
      ∀ r ∈ (kycGET s q now).2, ¬ ((r.address == a) = true)) ∧
    (normalizeAddress q = none → kycGET s q now = (.all s.length s, s)) ∧
    (kycGET s q now).2 = s := by
  refine ⟨?_, ?_, ?_⟩
  · intro hn hnone
    have heq : kycGET s q now = (.single ⟨a, .pending, now, none⟩, s) := by
      simp only [kycGET, hn, hnone]
    refine ⟨heq, ?_⟩
    intro r hr
    rw [heq] at hr
    have hfind : s.find? (fun x => x.address == a) = none := hnone
    exact List.find?_eq_none.mp hfind r hr
  · intro hn
    simp only [kycGET, hn]
  · cases hn : normalizeAddress q with
    | none => simp [kycGET, hn]
    | some a2 => cases h2 : kstoreGet s a2 <;> simp [kycGET, hn, h2]

/-- C4 witness: a valid unknown address yields a synthesized pending record
and the store keeps only its previous single record. -/
theorem c4_witness :
    kycGET [sampleKycRec]
      (some "0xbbbbbbbbbbbbbbbbbbbbbbbbbbbbbbbbbbbbbbbb") 5 =
      (.single ⟨"0xbbbbbbbbbbbbbbbbbbbbbbbbbbbbbbbbbbbbbbbb", .pending, 5, none⟩,
        [sampleKycRec]) :=
  ((c4_kyc_get [sampleKycRec]
    (some "0xbbbbbbbbbbbbbbbbbbbbbbbbbbbbbbbbbbbbbbbb") 5
    "0xbbbbbbbbbbbbbbbbbbbbbbbbbbbbbbbbbbbbbbbb").1 (by decide) (by decide)).1

/-- C10: KYC POST and PATCH on an address whose stored record carries notes,
called with no notes in the body, replace the record with one that has no
notes at all: the previously stored notes are discarded both in the
response and in the store. -/
theorem c10_notes_discarded (s : List KYCRecord) (a nOld stv : String)
    (e : KYCRecord) (now : Int) (st0 : KYCStatus)
    (bpost : KycPostBody) (bpatch : KycPatchBody)
    (hex : kstoreGet s a = some e) (hnotes : e.notes = some nOld)
    (hba : normalizeAddress bpost.address = some a) (hbn : bpost.notes = none)
    (hpa : normalizeAddress bpatch.address = some a)
    (hps : bpatch.status = some stv) (hpn : bpatch.notes = none)
    (hstv : parseKycStatus stv = some st0) :
    (kycPOST s (some bpost) now =
        .ok (⟨a, e.status, now, none⟩, 200,
          kstoreSet s ⟨a, e.status, now, none⟩) ∧
      kstoreGet (kstoreSet s ⟨a, e.status, now, none⟩) a =
        some ⟨a, e.status, now, none⟩) ∧
    (kycPATCH s (some bpatch) now =
        .ok ((some e, ⟨a, st0, now, none⟩), kstoreSet s ⟨a, st0, now, none⟩) ∧
      kstoreGet (kstoreSet s ⟨a, st0, now, none⟩) a =
        some ⟨a, st0, now, none⟩) := by
  refine ⟨⟨?_, ?_⟩, ?_, ?_⟩
  · simp only [kycPOST, hba, hex, hbn, truthyNotes]
  · exact assocGet_assocSet_self (fun r => r.address) s
      (⟨a, e.status, now, none⟩ : KYCRecord)
  · simp only [kycPATCH, hpa, hps, hstv, hex, hpn, truthyNotes]
  · exact assocGet_assocSet_self (fun r => r.address) s
      (⟨a, st0, now, none⟩ : KYCRecord)

/-- C10 witness: a notes-free POST over the sample record (which has stored
notes) produces and stores a record with no notes. -/
theorem c10_witness :
    kycPOST [sampleKycRec] (some ⟨some sampleAddr, none⟩) 7 =
      .ok (⟨sampleAddr, KYCStatus.approved, 7, none⟩, 200,
        kstoreSet [sampleKycRec] ⟨sampleAddr, KYCStatus.approved, 7, none⟩) :=
  ((c10_notes_discarded [sampleKycRec] sampleAddr "ok" "approved" sampleKycRec 7
    KYCStatus.approved ⟨some sampleAddr, none⟩
    ⟨some sampleAddr, some "approved", none⟩
    (by decide) rfl (by decide) rfl (by decide) rfl rfl rfl).1).1

end Winr
